import Mathlib

/-!
Shallow embedding of the Monaco editor adapter of this repository
(`src/packages/monaco/src/editor.ts`).

The adapter (`MonacoCodeEditor`) binds a JupyterLab `CodeEditor.IModel`
(the host document model, an observable string plus a MIME type) to a
monaco editor instance (the embedded component).  The embedding below
models:

* the two position conventions (host 0-based, monaco 1-based) and the
  translation functions `toMonacoPosition` / `toPosition`;
* the monaco text model's documented offset/position semantics
  (`getOffsetAt`, `getPositionAt`, `validatePosition`, edits), which the
  adapter delegates to;
* the reentrancy-guarded change bridge
  (`doHandleModelValueChanged` / `updateValue` and the MIME channel),
  as a fuel-indexed synchronous event semantics: every handler call
  consumes one unit of fuel, and `none` means the given call tree is
  deeper than the fuel — so a result of `some _` at a small fixed fuel
  is exactly the statement that propagation is a bounded chain;
* the selection functions, the layout computation, disposal and the
  coordinate query, as pure functions of the relevant state.

Machine numbers (JS `number` used only at integral values in this code)
are modelled as `Int`; text is a `List Char` (monaco's buffer is
modelled with `\n` end-of-line, as JupyterLab models normalize).
-/

/-- A host (JupyterLab `CodeEditor.IPosition`) position: 0-based `line`
and `column`. -/
structure HostPosition where
  line : Int
  column : Int
deriving DecidableEq, Repr

/-- A monaco `IPosition`: 1-based `lineNumber` and `column`. -/
structure MPosition where
  lineNumber : Int
  column : Int
deriving DecidableEq, Repr

/-- A monaco `Range` (also used to model `monaco.Selection`, which is a
`Range` together with a direction the adapter never inspects). -/
structure MRange where
  startLineNumber : Int
  startColumn : Int
  endLineNumber : Int
  endColumn : Int
deriving DecidableEq, Repr

/-- A host `CodeEditor.IRange`: a pair of host positions (the source
fields are `start` and `end`; `end` is a Lean keyword, so the second
field is called `stop`). -/
structure HostRange where
  start : HostPosition
  stop : HostPosition
deriving DecidableEq, Repr

namespace Monaco

/-- Buffer text as a list of characters (end-of-line is `\n`). -/
abbrev Text := List Char

/-- Split a text into its lines at `\n` characters; an empty text has a
single empty line, matching the monaco text model's line numbering. -/
def splitLines : Text → List Text
  | [] => [[]]
  | '\n' :: rest => [] :: splitLines rest
  | c :: rest =>
    match splitLines rest with
    | [] => [[c]]
    | l :: ls => (c :: l) :: ls

/-- Length of the 1-based line `ln` of a split text. -/
def lineLen (lines : List Text) (ln : Int) : Int :=
  ((lines.getD (ln - 1).toNat []).length : Int)

/-- Models monaco `TextModel.validatePosition`: clamp the line number
into `[1, lineCount]` and the column into `[1, lineLength + 1]`. -/
def validatePosition (lines : List Text) (p : MPosition) : MPosition :=
  let ln := max 1 (min p.lineNumber (lines.length : Int))
  let maxCol := lineLen lines ln + 1
  ⟨ln, max 1 (min p.column maxCol)⟩

/-- Total length, counting one `\n` per line, of the first `n` lines. -/
def linesBeforeLen (lines : List Text) (n : Nat) : Nat :=
  ((lines.take n).map (fun l => l.length + 1)).sum

/-- Models monaco `TextModel.getOffsetAt`: validate the position, then
count the characters of all preceding lines (each with its newline)
plus the 0-based column on the position's own line. -/
def getOffsetAt (text : Text) (p : MPosition) : Int :=
  let lines := splitLines text
  let q := validatePosition lines p
  (linesBeforeLen lines (q.lineNumber - 1).toNat : Int) + (q.column - 1)

/-- Walk the lines looking for the line containing the (already
clamped) offset; an offset pointing at a `\n` belongs to the end of the
line the `\n` terminates, as in monaco. -/
def getPositionAtAux : List Text → Nat → Int → MPosition
  | [], _, ln => ⟨ln, 1⟩
  | l :: rest, off, ln =>
    if off ≤ l.length then ⟨ln, (off : Int) + 1⟩
    else
      match rest with
      | [] => ⟨ln, (l.length : Int) + 1⟩
      | r :: rs => getPositionAtAux (r :: rs) (off - (l.length + 1)) (ln + 1)

/-- Models monaco `TextModel.getPositionAt`: clamp the offset into
`[0, length]` and locate it among the lines. -/
def getPositionAt (text : Text) (offset : Int) : MPosition :=
  let off := (max 0 (min offset (text.length : Int))).toNat
  getPositionAtAux (splitLines text) off 1

/-- Models monaco `TextModel.validateRange`: validate both endpoints. -/
def validateRange (text : Text) (r : MRange) : MRange :=
  let lines := splitLines text
  let s := validatePosition lines ⟨r.startLineNumber, r.startColumn⟩
  let e := validatePosition lines ⟨r.endLineNumber, r.endColumn⟩
  ⟨s.lineNumber, s.column, e.lineNumber, e.column⟩

/-- Models monaco applying a single edit operation (as built by
`doHandleModelValueChanged`): the range is replaced by the new text. -/
def applyEdit (text : Text) (r : MRange) (newText : Text) : Text :=
  let a := (getOffsetAt text ⟨r.startLineNumber, r.startColumn⟩).toNat
  let b := (getOffsetAt text ⟨r.endLineNumber, r.endColumn⟩).toNat
  text.take a ++ newText ++ text.drop b

end Monaco

namespace MonacoCodeEditor

open Monaco (Text)

/-- `MonacoCodeEditor.toMonacoPosition` (editor.ts:768-774): convert a
0-based host position to a 1-based monaco position. -/
def toMonacoPosition (position : HostPosition) : MPosition :=
  ⟨position.line + 1, position.column + 1⟩

/-- `MonacoCodeEditor.toPosition` (editor.ts:778-784): convert a
1-based monaco position to a 0-based host position. -/
def toPosition (position : MPosition) : HostPosition :=
  ⟨position.lineNumber - 1, position.column - 1⟩

/-- `MonacoCodeEditor.getOffsetAt` (editor.ts:310-312), parametrized by
the current monaco buffer content. -/
def getOffsetAt (text : Text) (position : HostPosition) : Int :=
  Monaco.getOffsetAt text (toMonacoPosition position)

/-- `MonacoCodeEditor.getPositionAt` (editor.ts:317-319), parametrized
by the current monaco buffer content. -/
def getPositionAt (text : Text) (offset : Int) : HostPosition :=
  toPosition (Monaco.getPositionAt text offset)

end MonacoCodeEditor

/-- A `monaco.editor.IDimension`: a width/height pair in pixels. -/
structure Dimension where
  width : Int
  height : Int
deriving DecidableEq, Repr

/-- The inputs of the adapter's layout computation: its two auto-sizing
options and the live metrics it reads from the hosting DOM node
(`offsetWidth`/`offsetHeight` and phosphor's `ElementExt.boxSizing`
border+padding sums) and from the editor configuration (`lineHeight`,
`layoutInfo.horizontalScrollbarHeight`) and model (`getLineCount`). -/
structure LayoutEnv where
  autoSizing : Bool
  minHeight : Int
  offsetWidth : Int
  offsetHeight : Int
  horizontalSum : Int
  verticalSum : Int
  lineHeight : Int
  lineCount : Int
  horizontalScrollbarHeight : Int
deriving DecidableEq, Repr

namespace MonacoCodeEditor

/-- `MonacoCodeEditor.getWidth` (editor.ts:632-634): the hosting node's
offset width minus the horizontal border+padding sum. -/
def getWidth (env : LayoutEnv) : Int :=
  env.offsetWidth - env.horizontalSum

/-- `MonacoCodeEditor.getHeight` (editor.ts:642-660): container
content-box height, or, with auto-sizing, line height times line count
plus the horizontal scrollbar height, floored at line height times
`minHeight` plus scrollbar height unless `minHeight < 0`. -/
def getHeight (env : LayoutEnv) : Int :=
  if !env.autoSizing then
    env.offsetHeight - env.verticalSum
  else
    let lineHeight := env.lineHeight
    let lineCount := env.lineCount
    let contentHeight := lineHeight * lineCount
    let horizontalScrollbarHeight := env.horizontalScrollbarHeight
    let editorHeight := contentHeight + horizontalScrollbarHeight
    if env.minHeight < 0 then
      editorHeight
    else
      let defaultHeight := lineHeight * env.minHeight + horizontalScrollbarHeight
      max defaultHeight editorHeight

/-- `MonacoCodeEditor.computeLayoutSize` (editor.ts:604-619): an
explicit dimension with non-negative width and height is returned
unchanged; each missing or negative component is computed from the
container (or, for the height, from the content in auto-sizing mode). -/
def computeLayoutSize (env : LayoutEnv) (dimension : Option Dimension) : Dimension :=
  match dimension with
  | some d =>
    if 0 ≤ d.width ∧ 0 ≤ d.height then d
    else
      { width := if d.width < 0 then getWidth env else d.width,
        height := if d.height < 0 then getHeight env else d.height }
  | none => { width := getWidth env, height := getHeight env }

/-- `MonacoCodeEditor.resize` (editor.ts:593-599): when
`getHostNode()` finds no hosting node (`hostNode = none`, the editor is
not attached to a rendered DOM surface) nothing happens; otherwise the
editor is laid out with the computed size.  The result is the dimension
passed to `editor.layout`, or `none` for the no-op case. -/
def resize (hostNode : Option LayoutEnv) (dimension : Option Dimension) : Option Dimension :=
  match hostNode with
  | some env => some (computeLayoutSize env dimension)
  | none => none

/-- `CodeEditor.ICoordinate`: a `ClientRect`-shaped record. -/
structure Coordinate where
  left : Int
  right : Int
  top : Int
  bottom : Int
  width : Int
  height : Int
deriving DecidableEq, Repr

/-- `MonacoCodeEditor.getCoordinateForPosition` (editor.ts:368-375),
parametrized by the `{left, top, height}` monaco's
`getScrolledVisiblePosition` reports for the translated position. -/
def getCoordinateForPosition (left top height : Int) : Coordinate :=
  let right := left
  let bottom := top - height
  let width := right - left
  { left := left, right := right, top := top, bottom := bottom,
    width := width, height := height }

end MonacoCodeEditor

/-- The listener bookkeeping of one adapter instance, as mutated by the
constructor and `dispose` (editor.ts:77-136): whether the two host-model
signal connections are live, how many editor-level and monaco-model
listeners are held, how many keydown handlers are registered, and
whether the embedded editor itself has been disposed. -/
structure AdapterState where
  isDisposed : Bool
  valueChangedConnected : Bool
  mimeTypeChangedConnected : Bool
  listeners : Nat
  monacoModelListeners : Nat
  keydownHandlers : Nat
  editorDisposed : Bool
deriving DecidableEq, Repr

namespace MonacoCodeEditor

/-- `MonacoCodeEditor.dispose` (editor.ts:120-136), instrumented with
the number of detachment/disposal actions performed: a disposed
adapter returns immediately (zero actions); otherwise the two host
signal connections are dropped, the monaco model listeners and the
editor listeners are popped and disposed one by one, the keydown
handler list is cleared, and the editor is disposed. -/
def dispose (s : AdapterState) : AdapterState × Nat :=
  if s.isDisposed then
    (s, 0)
  else
    let work :=
      (if s.valueChangedConnected then 1 else 0) +
      (if s.mimeTypeChangedConnected then 1 else 0) +
      s.monacoModelListeners + s.listeners + 1
    ({ isDisposed := true,
       valueChangedConnected := false,
       mimeTypeChangedConnected := false,
       listeners := 0,
       monacoModelListeners := 0,
       keydownHandlers := 0,
       editorDisposed := true }, work)

end MonacoCodeEditor

/-- The host `CodeEditor.ITextSelection`: a range with the owning
adapter's uuid and its selection style.  `ISelectionStyle` is opaque to
this adapter (it is stored at construction and copied into every
produced selection), so it is modelled as an uninterpreted tag. -/
structure TextSelection where
  uuid : String
  start : HostPosition
  stop : HostPosition
  style : String
deriving DecidableEq, Repr

/-- The state the selection operations read from the embedded editor:
the monaco model's content (used by `validateRange`/`validatePosition`),
the selections monaco currently reports, and the cursor position
`editor.getPosition()` reports. -/
structure SelectionState where
  text : Monaco.Text
  selections : List MRange
  cursor : MPosition

namespace MonacoCodeEditor

/-- `MonacoCodeEditor.toMonacoSelection` (editor.ts:564-568). -/
def toMonacoSelection (range : HostRange) : MRange :=
  let start := toMonacoPosition range.start
  let stop := toMonacoPosition range.stop
  ⟨start.lineNumber, start.column, stop.lineNumber, stop.column⟩

/-- `MonacoCodeEditor.toMonacoSelections` (editor.ts:554-559): an empty
input is replaced by the degenerate selection `(0,0,0,0)`. -/
def toMonacoSelections (selections : List HostRange) : List MRange :=
  if selections.length > 0 then
    selections.map toMonacoSelection
  else
    [⟨0, 0, 0, 0⟩]

/-- `MonacoCodeEditor.toSelection` (editor.ts:542-549). -/
def toSelection (uuid style : String) (selection : MRange) : TextSelection :=
  { uuid := uuid,
    start := toPosition ⟨selection.startLineNumber, selection.startColumn⟩,
    stop := toPosition ⟨selection.endLineNumber, selection.endColumn⟩,
    style := style }

/-- `MonacoCodeEditor.toValidSelection` (editor.ts:534-537). -/
def toValidSelection (st : SelectionState) (uuid style : String) (selection : MRange) : TextSelection :=
  toSelection uuid style (Monaco.validateRange st.text selection)

/-- `MonacoCodeEditor.toValidPosition` (editor.ts:576-579). -/
def toValidPosition (st : SelectionState) (position : MPosition) : HostPosition :=
  toPosition (Monaco.validatePosition (Monaco.splitLines st.text) position)

/-- `MonacoCodeEditor.getCursorPosition` (editor.ts:476-478). -/
def getCursorPosition (st : SelectionState) : HostPosition :=
  toValidPosition st st.cursor

/-- `MonacoCodeEditor.getSelections` (editor.ts:504-516): monaco's
selections when there are any, otherwise a zero-width selection
synthesized at the (validated) cursor position. -/
def getSelections (st : SelectionState) (uuid style : String) : List TextSelection :=
  if st.selections.length > 0 then
    st.selections.map (toValidSelection st uuid style)
  else
    let position := getCursorPosition st
    let monacoSelection := toMonacoSelection ⟨position, position⟩
    [toValidSelection st uuid style monacoSelection]

/-- `MonacoCodeEditor.getSelection` (editor.ts:490-492):
`getSelections()[0]`.  Since `getSelections` is never empty, the
JavaScript index-0 access is the head of the list (the `headD` default
is never reached). -/
def getSelection (st : SelectionState) (uuid style : String) : TextSelection :=
  (getSelections st uuid style).headD (toSelection uuid style ⟨0, 0, 0, 0⟩)

/-- `MonacoCodeEditor.setSelections` (editor.ts:523-526): monaco's
selections become the converted list. -/
def setSelections (st : SelectionState) (selections : List HostRange) : SelectionState :=
  { st with selections := toMonacoSelections selections }

end MonacoCodeEditor

/-- The payload of the host model's `IObservableString` change signal:
`{type, start, end, value}` (the `end` field is called `stop` because
`end` is a Lean keyword).  The `type` field is kept as a string because
the host-to-embedded handler switches on it and has a `default` branch,
so its behavior on tags outside the documented four is observable. -/
structure ChangedArgs where
  type : String
  start : Int
  stop : Int
  value : Monaco.Text
deriving DecidableEq, Repr

/-- Modelled from the spec: `findMimeTypeForLanguageId` and
`findLanguageIdForMimeType` live in `src/packages/monaco/src/language.ts`,
which is not among the provided sources.  The spec describes them as a
deterministic, externally supplied MIME↔language-id table, so they are
carried as an uninterpreted pair of functions. -/
structure LanguageMaps where
  toMime : String → String
  toLang : String → String

/-- The synchronized state the change bridge acts on: the two guard
flags of the adapter, the host model's text and MIME type, the current
monaco model's content and language id, and the number of listeners the
adapter holds on the monaco model (2 while connected: one language
listener and one content listener; monaco events reach the adapter only
while they are attached). -/
structure BridgeState where
  changeGuard : Bool
  mimeTypeChangeGuard : Bool
  hostText : Monaco.Text
  hostMimeType : String
  monacoText : Monaco.Text
  monacoLanguageId : String
  monacoModelListeners : Nat
deriving DecidableEq, Repr

/-- Observable actions of one synchronous propagation pass, used to
state suppression and ordering properties: guard transitions of the two
channels, mutations of the embedded (monaco) buffer, assignments into
the host model, and listener (de)attachment. -/
inductive Ev where
  | guardSet
  | guardClear
  | embeddedMutation
  | hostTextSet
  | mimeGuardSet
  | mimeGuardClear
  | languageSet
  | hostMimeSet
  | detachListeners
  | attachListeners
deriving DecidableEq, Repr

namespace MonacoCodeEditor

/-- The monaco range `doHandleModelValueChanged` builds for a non-`set`
change (editor.ts:200-202): both offsets converted to positions on the
current monaco model. -/
def incrementalEditRange (text : Monaco.Text) (change : ChangedArgs) : MRange :=
  let start := Monaco.getPositionAt text change.start
  let stop := Monaco.getPositionAt text change.stop
  ⟨start.lineNumber, start.column, stop.lineNumber, stop.column⟩

/-!
The bridge's handlers below form one synchronous call graph: a monaco
mutation fires the adapter's content/language listener in the same
turn, and an assignment into the host model fires the adapter's
host-side handler in the same turn.  Each call consumes one unit of
fuel; `none` means the call tree is deeper than the given fuel, so a
`some` result at a fixed fuel bounds the depth of every propagation
chain.  `autoresize` calls (pure layout, no buffer or guard effect) are
not part of this state.
-/

mutual

/-- `MonacoCodeEditor.doHandleModelValueChanged` (editor.ts:189-211):
the host-to-embedded content channel.  Returns immediately when the
content guard is set; otherwise sets the guard, overwrites the monaco
model for a `set` change and applies a single range edit for every
other type tag (the `default` branch of the `switch`), then clears the
guard. -/
def doHandleModelValueChanged : Nat → LanguageMaps → BridgeState → ChangedArgs → Option (BridgeState × List Ev)
  | 0, _, _, _ => none
  | fuel + 1, maps, s, change =>
    if s.changeGuard then some (s, [])
    else
      let s1 : BridgeState := { s with changeGuard := true }
      let step :=
        if change.type = "set" then
          monacoSetValue fuel maps s1 change.value
        else
          monacoApplyEdits fuel maps s1 (incrementalEditRange s1.monacoText change) change.value
      match step with
      | none => none
      | some (s2, evs) => some ({ s2 with changeGuard := false }, Ev.guardSet :: evs ++ [Ev.guardClear])

/-- monaco `model.setValue` as observed by the adapter: the buffer is
replaced and the model's content-change event fires the adapter's
listener (editor.ts:165,687-689) when one is attached. -/
def monacoSetValue : Nat → LanguageMaps → BridgeState → Monaco.Text → Option (BridgeState × List Ev)
  | 0, _, _, _ => none
  | fuel + 1, maps, s, value =>
    let s1 : BridgeState := { s with monacoText := value }
    match (if s1.monacoModelListeners ≠ 0 then updateValue fuel maps s1 else some (s1, [])) with
    | none => none
    | some (s2, evs) => some (s2, Ev.embeddedMutation :: evs)

/-- monaco `model.applyEdits` with the single edit operation built at
editor.ts:204-208: the range is replaced and the content-change event
fires the adapter's listener when one is attached. -/
def monacoApplyEdits : Nat → LanguageMaps → BridgeState → MRange → Monaco.Text → Option (BridgeState × List Ev)
  | 0, _, _, _, _ => none
  | fuel + 1, maps, s, range, text =>
    let s1 : BridgeState := { s with monacoText := Monaco.applyEdit s.monacoText range text }
    match (if s1.monacoModelListeners ≠ 0 then updateValue fuel maps s1 else some (s1, [])) with
    | none => none
    | some (s2, evs) => some (s2, Ev.embeddedMutation :: evs)

/-- `MonacoCodeEditor.updateValue` (editor.ts:694-701): the
embedded-to-host content channel.  Returns immediately when the content
guard is set; otherwise sets the guard, copies the monaco model's full
text into the host model, and clears the guard. -/
def updateValue : Nat → LanguageMaps → BridgeState → Option (BridgeState × List Ev)
  | 0, _, _ => none
  | fuel + 1, maps, s =>
    if s.changeGuard then some (s, [])
    else
      let s1 : BridgeState := { s with changeGuard := true }
      match hostModelSetText fuel maps s1 s1.monacoText with
      | none => none
      | some (s2, evs) => some ({ s2 with changeGuard := false }, Ev.guardSet :: evs ++ [Ev.guardClear])

/-- The host model's `IObservableString` text setter: a no-op for an
unchanged value, otherwise the text is assigned and the change signal
fires the adapter's connected handler `_onValueChanged`
(editor.ts:105,184-187) with a `set`-type payload. -/
def hostModelSetText : Nat → LanguageMaps → BridgeState → Monaco.Text → Option (BridgeState × List Ev)
  | 0, _, _, _ => none
  | fuel + 1, maps, s, value =>
    if value = s.hostText then some (s, [])
    else
      let s1 : BridgeState := { s with hostText := value }
      match doHandleModelValueChanged fuel maps s1 ⟨"set", 0, (value.length : Int), value⟩ with
      | none => none
      | some (s2, evs) => some (s2, Ev.hostTextSet :: evs)

/-- `MonacoCodeEditor._onMimeTypeChanged` (editor.ts:216-227): the
host-to-embedded MIME channel.  Returns immediately when the MIME
guard is set; otherwise sets the guard, maps a truthy (non-empty) new
MIME type to a language id and applies it to the monaco model, then
clears the guard. -/
def onMimeTypeChanged : Nat → LanguageMaps → BridgeState → String → Option (BridgeState × List Ev)
  | 0, _, _, _ => none
  | fuel + 1, maps, s, newValue =>
    if s.mimeTypeChangeGuard then some (s, [])
    else
      let s1 : BridgeState := { s with mimeTypeChangeGuard := true }
      match (if newValue ≠ "" then setModelLanguage fuel maps s1 (maps.toLang newValue) else some (s1, [])) with
      | none => none
      | some (s2, evs) => some ({ s2 with mimeTypeChangeGuard := false }, Ev.mimeGuardSet :: evs ++ [Ev.mimeGuardClear])

/-- `monaco.editor.setModelLanguage` as observed by the adapter: the
model's language id changes and the language-change event fires the
adapter's listener (editor.ts:164,679-682) when one is attached. -/
def setModelLanguage : Nat → LanguageMaps → BridgeState → String → Option (BridgeState × List Ev)
  | 0, _, _, _ => none
  | fuel + 1, maps, s, lang =>
    let s1 : BridgeState := { s with monacoLanguageId := lang }
    match (if s1.monacoModelListeners ≠ 0 then onDidChangeLanguage fuel maps s1 lang else some (s1, [])) with
    | none => none
    | some (s2, evs) => some (s2, Ev.languageSet :: evs)

/-- `MonacoCodeEditor._onDidChangeLanguage` (editor.ts:679-682): map
the new language id to a MIME type and push it to the host model. -/
def onDidChangeLanguage : Nat → LanguageMaps → BridgeState → String → Option (BridgeState × List Ev)
  | 0, _, _, _ => none
  | fuel + 1, maps, s, newLanguage =>
    updateMimeType fuel maps s (maps.toMime newLanguage)

/-- `MonacoCodeEditor.updateMimeType` (editor.ts:706-713): the
embedded-to-host MIME channel.  Returns immediately when the MIME guard
is set; otherwise sets the guard, assigns the host model's MIME type,
and clears the guard. -/
def updateMimeType : Nat → LanguageMaps → BridgeState → String → Option (BridgeState × List Ev)
  | 0, _, _, _ => none
  | fuel + 1, maps, s, mimeType =>
    if s.mimeTypeChangeGuard then some (s, [])
    else
      let s1 : BridgeState := { s with mimeTypeChangeGuard := true }
      match hostModelSetMimeType fuel maps s1 mimeType with
      | none => none
      | some (s2, evs) => some ({ s2 with mimeTypeChangeGuard := false }, Ev.mimeGuardSet :: evs ++ [Ev.mimeGuardClear])

/-- The host model's `mimeType` setter: a no-op for an unchanged value,
otherwise the MIME type is assigned and the `mimeTypeChanged` signal
fires the adapter's connected handler (editor.ts:106,216-227). -/
def hostModelSetMimeType : Nat → LanguageMaps → BridgeState → String → Option (BridgeState × List Ev)
  | 0, _, _, _ => none
  | fuel + 1, maps, s, mimeType =>
    if mimeType = s.hostMimeType then some (s, [])
    else
      let s1 : BridgeState := { s with hostMimeType := mimeType }
      match onMimeTypeChanged fuel maps s1 mimeType with
      | none => none
      | some (s2, evs) => some (s2, Ev.hostMimeSet :: evs)

/-- `MonacoCodeEditor.connectMonacoModel` (editor.ts:162-169): attach
the language and content listeners (two listeners) to the current
monaco model, call `updateValue()`, then derive the MIME type from the
model's language id and call `updateMimeType`. -/
def connectMonacoModel : Nat → LanguageMaps → BridgeState → Option (BridgeState × List Ev)
  | 0, _, _ => none
  | fuel + 1, maps, s =>
    let s1 : BridgeState := { s with monacoModelListeners := s.monacoModelListeners + 2 }
    match updateValue fuel maps s1 with
    | none => none
    | some (s2, evs1) =>
      match updateMimeType fuel maps s2 (maps.toMime s2.monacoLanguageId) with
      | none => none
      | some (s3, evs2) => some (s3, Ev.attachListeners :: evs1 ++ evs2)

end

/-- `MonacoCodeEditor.disconnectMonacoModel` (editor.ts:156-160): pop
and dispose every held monaco-model listener. -/
def disconnectMonacoModel (s : BridgeState) : BridgeState × List Ev :=
  ({ s with monacoModelListeners := 0 }, [Ev.detachListeners])

/-- `MonacoCodeEditor._onDidChangeModel` (editor.ts:141-144): on an
editor model swap, disconnect from the old monaco model and connect to
the new one. -/
def onDidChangeModel : Nat → LanguageMaps → BridgeState → Option (BridgeState × List Ev)
  | 0, _, _ => none
  | fuel + 1, maps, s =>
    let (s1, evs1) := disconnectMonacoModel s
    match connectMonacoModel fuel maps s1 with
    | none => none
    | some (s2, evs2) => some (s2, evs1 ++ evs2)

end MonacoCodeEditor

/-- A concrete pair of MIME↔language tables, used to instantiate the
bridge at concrete inputs. -/
def sampleLanguageMaps : LanguageMaps :=
  ⟨fun l => String.append "mime:" l, fun m => String.append "lang:" m⟩

/-- A guarded host-to-embedded handler returns immediately, at any
non-zero fuel. -/
theorem doHandle_of_guard (fuel : Nat) (maps : LanguageMaps) (s : BridgeState)
    (c : ChangedArgs) (h : s.changeGuard = true) :
    MonacoCodeEditor.doHandleModelValueChanged (fuel + 1) maps s c = some (s, []) := by
  simp [MonacoCodeEditor.doHandleModelValueChanged, h]

/-- A guarded embedded-to-host write-back returns immediately, at any
non-zero fuel. -/
theorem updateValue_of_guard (fuel : Nat) (maps : LanguageMaps) (s : BridgeState)
    (h : s.changeGuard = true) :
    MonacoCodeEditor.updateValue (fuel + 1) maps s = some (s, []) := by
  simp [MonacoCodeEditor.updateValue, h]

/-- A guarded host-side MIME handler returns immediately, at any
non-zero fuel. -/
theorem onMimeTypeChanged_of_guard (fuel : Nat) (maps : LanguageMaps) (s : BridgeState)
    (m : String) (h : s.mimeTypeChangeGuard = true) :
    MonacoCodeEditor.onMimeTypeChanged (fuel + 1) maps s m = some (s, []) := by
  simp [MonacoCodeEditor.onMimeTypeChanged, h]

/-- While the content guard is set, replacing the monaco buffer
performs exactly the mutation: the fired content-change event is
suppressed by the guard. -/
theorem monacoSetValue_of_guard (fuel : Nat) (maps : LanguageMaps) (s : BridgeState)
    (v : Monaco.Text) (h : s.changeGuard = true) :
    MonacoCodeEditor.monacoSetValue (fuel + 1 + 1) maps s v =
      some ({ s with monacoText := v }, [Ev.embeddedMutation]) := by
  have hu := updateValue_of_guard fuel maps { s with monacoText := v } (by simpa using h)
  simp [MonacoCodeEditor.monacoSetValue, hu]

/-- While the content guard is set, applying a monaco edit performs
exactly the mutation: the fired content-change event is suppressed by
the guard. -/
theorem monacoApplyEdits_of_guard (fuel : Nat) (maps : LanguageMaps) (s : BridgeState)
    (r : MRange) (t : Monaco.Text) (h : s.changeGuard = true) :
    MonacoCodeEditor.monacoApplyEdits (fuel + 1 + 1) maps s r t =
      some ({ s with monacoText := Monaco.applyEdit s.monacoText r t },
        [Ev.embeddedMutation]) := by
  have hu := updateValue_of_guard fuel maps
    { s with monacoText := Monaco.applyEdit s.monacoText r t } (by simpa using h)
  simp [MonacoCodeEditor.monacoApplyEdits, hu]

/-- Closed form of the host-to-embedded content handler at any fuel of
at least 3: a guarded call is the identity; an unguarded call performs
one embedded-buffer mutation (`setValue` for a `set` change, one range
edit for every other type tag), suppresses the echo, and cycles the
guard exactly once. -/
theorem doHandle_closed_form (fuel : Nat) (maps : LanguageMaps) (s : BridgeState)
    (c : ChangedArgs) :
    MonacoCodeEditor.doHandleModelValueChanged (fuel + 1 + 1 + 1) maps s c =
      if s.changeGuard then some (s, [])
      else
        some ({ s with
                changeGuard := false
                monacoText :=
                  if c.type = "set" then c.value
                  else Monaco.applyEdit s.monacoText
                    (MonacoCodeEditor.incrementalEditRange s.monacoText c) c.value },
          [Ev.guardSet, Ev.embeddedMutation, Ev.guardClear]) := by
  by_cases hg : s.changeGuard
  · simp [MonacoCodeEditor.doHandleModelValueChanged, hg]
  · have hg' : s.changeGuard = false := by simpa using hg
    by_cases ht : c.type = "set"
    · have hs := monacoSetValue_of_guard fuel maps { s with changeGuard := true } c.value rfl
      simp [MonacoCodeEditor.doHandleModelValueChanged, hg', ht, hs]
    · have hs := monacoApplyEdits_of_guard fuel maps { s with changeGuard := true }
        (MonacoCodeEditor.incrementalEditRange s.monacoText c) c.value rfl
      simp [MonacoCodeEditor.doHandleModelValueChanged, hg', ht, hs]

/-- Claim C1: for every Document Model content-change event, a set
content guard makes the host-to-embedded handler return immediately
with the embedded buffer untouched; with the guard clear, a single
host-model mutation performs exactly one embedded-buffer mutation and
the resulting embedded change event is suppressed by the guard — the
trace holds no host assignment and the host text is unchanged — while
the guard cycles set-then-clear exactly once; and adding any amount of
fuel beyond call depth 3 never changes the result, so the propagation
never forms an unbounded chain. -/
theorem c1_no_infinite_propagation (maps : LanguageMaps) (s : BridgeState) (c : ChangedArgs) :
    (s.changeGuard = true →
      MonacoCodeEditor.doHandleModelValueChanged 3 maps s c = some (s, [])) ∧
    (s.changeGuard = false →
      ∃ s2 : BridgeState,
        MonacoCodeEditor.doHandleModelValueChanged 3 maps s c =
          some (s2, [Ev.guardSet, Ev.embeddedMutation, Ev.guardClear]) ∧
        s2.changeGuard = false ∧ s2.hostText = s.hostText) ∧
    (∀ n : Nat,
      MonacoCodeEditor.doHandleModelValueChanged (n + 3) maps s c =
        MonacoCodeEditor.doHandleModelValueChanged 3 maps s c) := by
  refine ⟨?_, ?_, ?_⟩
  · intro hg
    have h3 := doHandle_closed_form 0 maps s c
    rw [hg] at h3
    simp only [if_true] at h3
    exact h3
  · intro hg
    have h3 := doHandle_closed_form 0 maps s c
    rw [hg] at h3
    simp only [Bool.false_eq_true, if_false] at h3
    exact ⟨_, h3, rfl, rfl⟩
  · intro n
    exact (doHandle_closed_form n maps s c).trans (doHandle_closed_form 0 maps s c).symm

/-- Witness for C1: a concrete guarded state is returned unchanged with
an empty trace, and the same state with the guard clear performs the
single suppressed-echo mutation cycle. -/
theorem c1_no_infinite_propagation_witness :
    MonacoCodeEditor.doHandleModelValueChanged 3 sampleLanguageMaps
      ⟨true, false, "a".data, "m", "a".data, "l", 2⟩ ⟨"set", 0, 1, "b".data⟩ =
      some (⟨true, false, "a".data, "m", "a".data, "l", 2⟩, []) ∧
    (∃ s2 : BridgeState,
      MonacoCodeEditor.doHandleModelValueChanged 3 sampleLanguageMaps
        ⟨false, false, "a".data, "m", "a".data, "l", 2⟩ ⟨"set", 0, 1, "b".data⟩ =
        some (s2, [Ev.guardSet, Ev.embeddedMutation, Ev.guardClear]) ∧
      s2.changeGuard = false ∧ s2.hostText = ("a".data : Monaco.Text)) :=
  ⟨(c1_no_infinite_propagation sampleLanguageMaps
      ⟨true, false, "a".data, "m", "a".data, "l", 2⟩ ⟨"set", 0, 1, "b".data⟩).1 rfl,
   (c1_no_infinite_propagation sampleLanguageMaps
      ⟨false, false, "a".data, "m", "a".data, "l", 2⟩ ⟨"set", 0, 1, "b".data⟩).2.1 rfl⟩

/-- Counterexample to claim C2: a change event with the unrecognized
type tag `"bogus"` does not raise an error — the handler returns
normally, having applied the incremental edit `[1,2) ← "XY"` to the
embedded buffer, which thereby silently diverges from the untouched
host text. -/
theorem c2_counterexample :
    MonacoCodeEditor.doHandleModelValueChanged 3 sampleLanguageMaps
      ⟨false, false, "abc".data, "text/plain", "abc".data, "plaintext", 2⟩
      ⟨"bogus", 1, 2, "XY".data⟩ =
      some (⟨false, false, "abc".data, "text/plain", "aXYc".data, "plaintext", 2⟩,
        [Ev.guardSet, Ev.embeddedMutation, Ev.guardClear]) ∧
    ("aXYc".data : Monaco.Text) ≠ "abc".data := by
  decide

/-- Claim C2 amended: for every change whose type tag is not `set` —
the documented `insert`/`remove`/`replace` tags and any unrecognized
tag alike — the unguarded handler applies a single range edit replacing
the `[start, end)` span with the payload value; no error is raised (the
`switch` statement's `default` branch handles every non-`set` tag). -/
theorem c2_amended (maps : LanguageMaps) (s : BridgeState) (c : ChangedArgs)
    (hg : s.changeGuard = false) (ht : c.type ≠ "set") :
    MonacoCodeEditor.doHandleModelValueChanged 3 maps s c =
      some ({ s with
              changeGuard := false
              monacoText := Monaco.applyEdit s.monacoText
                (MonacoCodeEditor.incrementalEditRange s.monacoText c) c.value },
        [Ev.guardSet, Ev.embeddedMutation, Ev.guardClear]) := by
  have h3 := doHandle_closed_form 0 maps s c
  rw [hg] at h3
  simp only [Bool.false_eq_true, if_false, if_neg ht] at h3
  exact h3

/-- Witness for C2 amended, at a recognized non-`set` tag. -/
theorem c2_amended_witness :
    MonacoCodeEditor.doHandleModelValueChanged 3 sampleLanguageMaps
      ⟨false, false, "abc".data, "text/plain", "abc".data, "plaintext", 2⟩
      ⟨"replace", 1, 2, "XY".data⟩ =
      some (⟨false, false, "abc".data, "text/plain",
        Monaco.applyEdit "abc".data
          (MonacoCodeEditor.incrementalEditRange "abc".data ⟨"replace", 1, 2, "XY".data⟩)
          "XY".data,
        "plaintext", 2⟩,
        [Ev.guardSet, Ev.embeddedMutation, Ev.guardClear]) :=
  c2_amended sampleLanguageMaps
    ⟨false, false, "abc".data, "text/plain", "abc".data, "plaintext", 2⟩
    ⟨"replace", 1, 2, "XY".data⟩ rfl (by decide)

/-- Counterexample to claim C3: after the host sets the text to
`"a\nbb\nccc"` (an 8-character string, not 9) the embedded buffer does
converge to it, but `getOffsetAt {line:2, column:1}` returns 6, not 5,
and `getPositionAt 5` returns `{line:2, column:0}`, not
`{line:2, column:1}`. -/
theorem c3_counterexample :
    MonacoCodeEditor.hostModelSetText 4 sampleLanguageMaps
      ⟨false, false, [], "text/plain", [], "plaintext", 2⟩ "a\nbb\nccc".data =
      some (⟨false, false, "a\nbb\nccc".data, "text/plain", "a\nbb\nccc".data,
          "plaintext", 2⟩,
        [Ev.hostTextSet, Ev.guardSet, Ev.embeddedMutation, Ev.guardClear]) ∧
    ("a\nbb\nccc".data).length = 8 ∧
    ¬ (MonacoCodeEditor.getOffsetAt "a\nbb\nccc".data ⟨2, 1⟩ = 5 ∧
      MonacoCodeEditor.getPositionAt "a\nbb\nccc".data 5 = ⟨2, 1⟩) := by
  decide

/-- Claim C3 amended: after the host sets `DocumentModel.text` to the
8-character string `"a\nbb\nccc"` via a `set`-type change, the embedded
buffer's content equals that string; `getOffsetAt {line:2, column:1}`
returns 6; `getPositionAt 5` returns `{line:2, column:0}` (5 is the
offset of host position `{line:2, column:0}`). -/
theorem c3_amended_scenario :
    MonacoCodeEditor.hostModelSetText 4 sampleLanguageMaps
      ⟨false, false, [], "text/plain", [], "plaintext", 2⟩ "a\nbb\nccc".data =
      some (⟨false, false, "a\nbb\nccc".data, "text/plain", "a\nbb\nccc".data,
          "plaintext", 2⟩,
        [Ev.hostTextSet, Ev.guardSet, Ev.embeddedMutation, Ev.guardClear]) ∧
    MonacoCodeEditor.getOffsetAt "a\nbb\nccc".data ⟨2, 1⟩ = 6 ∧
    MonacoCodeEditor.getPositionAt "a\nbb\nccc".data 5 = ⟨2, 0⟩ ∧
    MonacoCodeEditor.getOffsetAt "a\nbb\nccc".data ⟨2, 0⟩ = 5 := by
  decide

/-- Closed form of the unguarded embedded-to-host write-back at any
fuel of at least 3: the monaco text is copied into the host model (with
no assignment event when it is already equal), the echo into the
host-to-embedded handler is suppressed, and the guard cycles exactly
once. -/
theorem updateValue_closed_form (fuel : Nat) (maps : LanguageMaps) (s : BridgeState)
    (hg : s.changeGuard = false) :
    MonacoCodeEditor.updateValue (fuel + 1 + 1 + 1) maps s =
      (if s.monacoText = s.hostText then
        some ({ s with changeGuard := false }, [Ev.guardSet, Ev.guardClear])
      else
        some ({ s with
                changeGuard := false
                hostText := s.monacoText },
          [Ev.guardSet, Ev.hostTextSet, Ev.guardClear])) := by
  by_cases he : s.monacoText = s.hostText <;>
    simp [MonacoCodeEditor.updateValue, MonacoCodeEditor.hostModelSetText, hg, he,
      doHandle_of_guard]

/-- Closed form of the unguarded embedded-to-host MIME write-back at
any fuel of at least 3: the given MIME type is assigned into the host
model (with no assignment event when it is already equal), the echo
into the host-side MIME handler is suppressed, and the MIME guard
cycles exactly once. -/
theorem updateMimeType_closed_form (fuel : Nat) (maps : LanguageMaps) (s : BridgeState)
    (m : String) (hm : s.mimeTypeChangeGuard = false) :
    MonacoCodeEditor.updateMimeType (fuel + 1 + 1 + 1) maps s m =
      (if m = s.hostMimeType then
        some ({ s with mimeTypeChangeGuard := false }, [Ev.mimeGuardSet, Ev.mimeGuardClear])
      else
        some ({ s with
                mimeTypeChangeGuard := false
                hostMimeType := m },
          [Ev.mimeGuardSet, Ev.hostMimeSet, Ev.mimeGuardClear])) := by
  by_cases he : m = s.hostMimeType <;>
    simp [MonacoCodeEditor.updateMimeType, MonacoCodeEditor.hostModelSetMimeType, hm, he,
      onMimeTypeChanged_of_guard]

/-- Closed form of `connectMonacoModel` when both guards are clear and
both the monaco content and the derived MIME type differ from the
host's: attach two listeners, pull the monaco content into the host
model, then derive the MIME type from the monaco language id and pull
it into the host model — in that order. -/
theorem connectMonacoModel_closed_form (fuel : Nat) (maps : LanguageMaps) (s : BridgeState)
    (hg : s.changeGuard = false) (hm : s.mimeTypeChangeGuard = false)
    (ht : s.monacoText ≠ s.hostText)
    (hmt : maps.toMime s.monacoLanguageId ≠ s.hostMimeType) :
    MonacoCodeEditor.connectMonacoModel (fuel + 1 + 1 + 1 + 1) maps s =
      some ({ s with
              changeGuard := false
              mimeTypeChangeGuard := false
              hostText := s.monacoText
              hostMimeType := maps.toMime s.monacoLanguageId
              monacoModelListeners := s.monacoModelListeners + 2 },
        [Ev.attachListeners, Ev.guardSet, Ev.hostTextSet, Ev.guardClear,
          Ev.mimeGuardSet, Ev.hostMimeSet, Ev.mimeGuardClear]) := by
  simp [MonacoCodeEditor.connectMonacoModel, updateValue_closed_form,
    updateMimeType_closed_form, hg, hm, ht, hmt]

/-- Closed form of the model-swap handler `_onDidChangeModel` at any
fuel of at least 5, when both guards are clear and both the new monaco
model's content and its derived MIME type differ from the host's:
detach all listeners, attach two to the new model, pull the new model's
content into the host model, then pull its derived MIME type into the
host model. -/
theorem onDidChangeModel_closed_form (fuel : Nat) (maps : LanguageMaps) (s : BridgeState)
    (hg : s.changeGuard = false) (hm : s.mimeTypeChangeGuard = false)
    (ht : s.monacoText ≠ s.hostText)
    (hmt : maps.toMime s.monacoLanguageId ≠ s.hostMimeType) :
    MonacoCodeEditor.onDidChangeModel (fuel + 1 + 1 + 1 + 1 + 1) maps s =
      some (⟨false, false, s.monacoText, maps.toMime s.monacoLanguageId,
          s.monacoText, s.monacoLanguageId, 2⟩,
        [Ev.detachListeners, Ev.attachListeners, Ev.guardSet, Ev.hostTextSet, Ev.guardClear,
          Ev.mimeGuardSet, Ev.hostMimeSet, Ev.mimeGuardClear]) := by
  have hc := connectMonacoModel_closed_form fuel maps
    { s with monacoModelListeners := 0 }
    (by simpa using hg) (by simpa using hm) (by simpa using ht) (by simpa using hmt)
  simp only [MonacoCodeEditor.onDidChangeModel, MonacoCodeEditor.disconnectMonacoModel] at hc ⊢
  simp [hc]

/-- Counterexample to claim C6: the host model holds `"abc"` and the
embedded component swaps in a fresh buffer holding `"xyz"`.  The claim
predicts the current host content is pushed into the new buffer; in
fact the bridge pulls the new buffer's content `"xyz"` into the host
model — the new buffer never receives `"abc"`, and the host text is
overwritten. -/
theorem c6_counterexample :
    MonacoCodeEditor.onDidChangeModel 5 sampleLanguageMaps
      ⟨false, false, "abc".data, "text/plain", "xyz".data, "python", 2⟩ =
      some (⟨false, false, "xyz".data, "mime:python", "xyz".data, "python", 2⟩,
        [Ev.detachListeners, Ev.attachListeners, Ev.guardSet, Ev.hostTextSet, Ev.guardClear,
          Ev.mimeGuardSet, Ev.hostMimeSet, Ev.mimeGuardClear]) ∧
    ("xyz".data : Monaco.Text) ≠ "abc".data := by
  decide

/-- Claim C6 amended: when the embedded component swaps its internal
buffer, the bridge performs, in order: detach all listeners from the
old buffer, attach listeners to the new one, copy the new buffer's
content into the host model (the echo being guard-suppressed), and
derive the MIME type from the new buffer's language id and push it into
the host model — so the host model and the new buffer end consistent,
with the new buffer's content, not the host's, surviving. -/
theorem c6_amended (maps : LanguageMaps) (s : BridgeState) (newText : Monaco.Text)
    (newLang : String)
    (hg : s.changeGuard = false) (hm : s.mimeTypeChangeGuard = false)
    (ht : newText ≠ s.hostText) (hmt : maps.toMime newLang ≠ s.hostMimeType) :
    MonacoCodeEditor.onDidChangeModel 5 maps
      { s with monacoText := newText, monacoLanguageId := newLang } =
      some (⟨false, false, newText, maps.toMime newLang, newText, newLang, 2⟩,
        [Ev.detachListeners, Ev.attachListeners, Ev.guardSet, Ev.hostTextSet, Ev.guardClear,
          Ev.mimeGuardSet, Ev.hostMimeSet, Ev.mimeGuardClear]) :=
  onDidChangeModel_closed_form 0 maps
    { s with monacoText := newText, monacoLanguageId := newLang } hg hm ht hmt

/-- Witness for C6 amended: a concrete swap from a host holding
`"abc"`/`text/plain` to a buffer holding `"xyz"`/`python` ends with
both sides holding `"xyz"` and the derived MIME type. -/
theorem c6_amended_witness :
    MonacoCodeEditor.onDidChangeModel 5 sampleLanguageMaps
      { (⟨false, false, "abc".data, "text/plain", "old".data, "java", 7⟩ : BridgeState) with
        monacoText := "xyz".data, monacoLanguageId := "python" } =
      some (⟨false, false, "xyz".data, String.append "mime:" "python", "xyz".data, "python", 2⟩,
        [Ev.detachListeners, Ev.attachListeners, Ev.guardSet, Ev.hostTextSet, Ev.guardClear,
          Ev.mimeGuardSet, Ev.hostMimeSet, Ev.mimeGuardClear]) :=
  c6_amended sampleLanguageMaps
    ⟨false, false, "abc".data, "text/plain", "old".data, "java", 7⟩
    "xyz".data "python" rfl rfl (by decide) (by decide)

/-- Claim C4: `toMonacoPosition` adds 1 to both line and column,
`toPosition` subtracts 1 from both, both are total and pure (they are
Lean functions), and they are mutually inverse on in-range positions
(0-based host positions, 1-based monaco positions). -/
theorem c4_position_roundtrip (p : HostPosition) (q : MPosition)
    (hpl : 0 ≤ p.line) (hpc : 0 ≤ p.column)
    (hql : 1 ≤ q.lineNumber) (hqc : 1 ≤ q.column) :
    MonacoCodeEditor.toMonacoPosition p = ⟨p.line + 1, p.column + 1⟩ ∧
    MonacoCodeEditor.toPosition q = ⟨q.lineNumber - 1, q.column - 1⟩ ∧
    MonacoCodeEditor.toPosition (MonacoCodeEditor.toMonacoPosition p) = p ∧
    MonacoCodeEditor.toMonacoPosition (MonacoCodeEditor.toPosition q) = q := by
  obtain ⟨pl, pc⟩ := p
  obtain ⟨ql, qc⟩ := q
  refine ⟨rfl, rfl, ?_, ?_⟩ <;>
    simp [MonacoCodeEditor.toMonacoPosition, MonacoCodeEditor.toPosition]

/-- Witness for C4 at the in-range positions `{line:2, column:1}` and
`{lineNumber:3, column:2}`. -/
theorem c4_position_roundtrip_witness :
    MonacoCodeEditor.toPosition (MonacoCodeEditor.toMonacoPosition ⟨2, 1⟩) = ⟨2, 1⟩ ∧
    MonacoCodeEditor.toMonacoPosition (MonacoCodeEditor.toPosition ⟨3, 2⟩) = ⟨3, 2⟩ :=
  ⟨(c4_position_roundtrip ⟨2, 1⟩ ⟨3, 2⟩ (by decide) (by decide) (by decide) (by decide)).2.2.1,
   (c4_position_roundtrip ⟨2, 1⟩ ⟨3, 2⟩ (by decide) (by decide) (by decide) (by decide)).2.2.2⟩

/-- Claim C10: `getCoordinateForPosition` always returns a degenerate
rectangle: `right = left`, `width = 0`, `bottom = top - height`, hence
`bottom ≤ top` whenever the reported height is non-negative. -/
theorem c10_coordinate_degenerate (left top height : Int) :
    (MonacoCodeEditor.getCoordinateForPosition left top height).right =
      (MonacoCodeEditor.getCoordinateForPosition left top height).left ∧
    (MonacoCodeEditor.getCoordinateForPosition left top height).width = 0 ∧
    (MonacoCodeEditor.getCoordinateForPosition left top height).bottom =
      (MonacoCodeEditor.getCoordinateForPosition left top height).top -
        (MonacoCodeEditor.getCoordinateForPosition left top height).height ∧
    (0 ≤ height →
      (MonacoCodeEditor.getCoordinateForPosition left top height).bottom ≤
        (MonacoCodeEditor.getCoordinateForPosition left top height).top) := by
  refine ⟨rfl, by simp [MonacoCodeEditor.getCoordinateForPosition], rfl, ?_⟩
  intro h
  simp only [MonacoCodeEditor.getCoordinateForPosition]
  omega

/-- Witness for C10 at `left = 3`, `top = 10`, `height = 2`. -/
theorem c10_coordinate_degenerate_witness :
    (MonacoCodeEditor.getCoordinateForPosition 3 10 2).width = 0 ∧
    (MonacoCodeEditor.getCoordinateForPosition 3 10 2).bottom ≤
      (MonacoCodeEditor.getCoordinateForPosition 3 10 2).top :=
  ⟨(c10_coordinate_degenerate 3 10 2).2.1,
   (c10_coordinate_degenerate 3 10 2).2.2.2 (by decide)⟩

/-- Claim C7: with auto-sizing enabled the computed height is
`lineHeight * lineCount + horizontalScrollbarHeight`, floored at
`lineHeight * minHeight + horizontalScrollbarHeight` when `minHeight`
is non-negative (a negative `minHeight` disables the floor); with
`minHeight = 5`, `lineHeight = 20` and 2 lines the height is
`20*5 + scrollbarHeight`, not `20*2 + scrollbarHeight`. -/
theorem c7_autosize_floor (env : LayoutEnv) (ha : env.autoSizing = true) :
    (env.minHeight < 0 →
      MonacoCodeEditor.getHeight env =
        env.lineHeight * env.lineCount + env.horizontalScrollbarHeight) ∧
    (0 ≤ env.minHeight →
      MonacoCodeEditor.getHeight env =
        max (env.lineHeight * env.minHeight + env.horizontalScrollbarHeight)
          (env.lineHeight * env.lineCount + env.horizontalScrollbarHeight)) ∧
    (env.minHeight = 5 → env.lineHeight = 20 → env.lineCount = 2 →
      MonacoCodeEditor.getHeight env = 20 * 5 + env.horizontalScrollbarHeight ∧
      MonacoCodeEditor.getHeight env ≠ 20 * 2 + env.horizontalScrollbarHeight) := by
  refine ⟨?_, ?_, ?_⟩
  · intro hneg
    simp [MonacoCodeEditor.getHeight, ha, hneg]
  · intro hpos
    simp [MonacoCodeEditor.getHeight, ha, not_lt.mpr hpos]
  · intro h5 h20 h2
    simp [MonacoCodeEditor.getHeight, ha, h5, h20, h2]

/-- Witness for C7: auto-sizing with `minHeight = 5`, `lineHeight = 20`,
2 lines and a 7-pixel scrollbar yields height `107 = 20*5 + 7`. -/
theorem c7_autosize_floor_witness :
    MonacoCodeEditor.getHeight ⟨true, 5, 0, 0, 0, 0, 20, 2, 7⟩ = 20 * 5 + 7 ∧
    MonacoCodeEditor.getHeight ⟨true, 5, 0, 0, 0, 0, 20, 2, 7⟩ ≠ 20 * 2 + 7 :=
  (c7_autosize_floor ⟨true, 5, 0, 0, 0, 0, 20, 2, 7⟩ rfl).2.2 rfl rfl rfl

/-- Claim C8: under the DOM geometry invariants (a node's offset sizes
include its border and padding sums, and the editor's font and
scrollbar metrics are non-negative), the layout computation never
produces a negative width or height; `resize` on a detached editor
(no hosting node) is a no-op returning no layout at all; and an
explicitly supplied dimension with non-negative components is applied
unchanged. -/
theorem c8_resize_safe (env : LayoutEnv) (d : Option Dimension)
    (hw : env.horizontalSum ≤ env.offsetWidth)
    (hh : env.verticalSum ≤ env.offsetHeight)
    (hlh : 0 ≤ env.lineHeight) (hlc : 0 ≤ env.lineCount)
    (hsb : 0 ≤ env.horizontalScrollbarHeight) :
    (0 ≤ (MonacoCodeEditor.computeLayoutSize env d).width ∧
      0 ≤ (MonacoCodeEditor.computeLayoutSize env d).height) ∧
    MonacoCodeEditor.resize none d = none ∧
    (∀ w h : Int, 0 ≤ w → 0 ≤ h →
      MonacoCodeEditor.computeLayoutSize env (some ⟨w, h⟩) = ⟨w, h⟩) ∧
    MonacoCodeEditor.resize (some env) d = some (MonacoCodeEditor.computeLayoutSize env d) := by
  have hW : 0 ≤ MonacoCodeEditor.getWidth env := by
    simp [MonacoCodeEditor.getWidth]
    omega
  have hH : 0 ≤ MonacoCodeEditor.getHeight env := by
    unfold MonacoCodeEditor.getHeight
    by_cases ha : env.autoSizing
    · have hmul : 0 ≤ env.lineHeight * env.lineCount := mul_nonneg hlh hlc
      by_cases hmin : env.minHeight < 0
      · simp [ha, hmin]
        omega
      · simp [ha, hmin]
        right
        omega
    · simp [ha]
      omega
  refine ⟨?_, rfl, ?_, rfl⟩
  · match d with
    | none => exact ⟨hW, hH⟩
    | some dd =>
      by_cases hd : 0 ≤ dd.width ∧ 0 ≤ dd.height
      · simp only [MonacoCodeEditor.computeLayoutSize, hd, if_true]
        exact hd
      · simp only [MonacoCodeEditor.computeLayoutSize, hd, if_false]
        constructor
        · by_cases hww : dd.width < 0 <;> simp [hww] <;> omega
        · by_cases hhh : dd.height < 0 <;> simp [hhh] <;> omega
  · intro w h hw0 hh0
    simp [MonacoCodeEditor.computeLayoutSize, hw0, hh0]

/-- Witness for C8: a concrete geometry and a partially negative
explicit dimension produce the container width and the auto-computed
height, both non-negative; a fully non-negative dimension is applied
unchanged; a detached resize is a no-op. -/
theorem c8_resize_safe_witness :
    (0 ≤ (MonacoCodeEditor.computeLayoutSize ⟨true, -1, 300, 200, 16, 12, 20, 2, 7⟩
        (some ⟨-1, -1⟩)).width ∧
      0 ≤ (MonacoCodeEditor.computeLayoutSize ⟨true, -1, 300, 200, 16, 12, 20, 2, 7⟩
        (some ⟨-1, -1⟩)).height) ∧
    MonacoCodeEditor.resize none (some ⟨-1, -1⟩) = none ∧
    MonacoCodeEditor.computeLayoutSize ⟨true, -1, 300, 200, 16, 12, 20, 2, 7⟩
      (some ⟨120, 80⟩) = ⟨120, 80⟩ :=
  ⟨(c8_resize_safe ⟨true, -1, 300, 200, 16, 12, 20, 2, 7⟩ (some ⟨-1, -1⟩)
      (by decide) (by decide) (by decide) (by decide) (by decide)).1,
   (c8_resize_safe ⟨true, -1, 300, 200, 16, 12, 20, 2, 7⟩ (some ⟨-1, -1⟩)
      (by decide) (by decide) (by decide) (by decide) (by decide)).2.1,
   (c8_resize_safe ⟨true, -1, 300, 200, 16, 12, 20, 2, 7⟩ (some ⟨-1, -1⟩)
      (by decide) (by decide) (by decide) (by decide) (by decide)).2.2.1 120 80
      (by decide) (by decide)⟩

/-- Claim C9: `dispose` is idempotent — on an already-disposed state it
returns the state unchanged and performs zero detachment actions — and
the first call on a live adapter detaches both host signal connections,
all monaco-model and editor listeners, clears the keydown handler list
and disposes the editor. -/
theorem c9_dispose_idempotent (s : AdapterState) :
    (MonacoCodeEditor.dispose (MonacoCodeEditor.dispose s).1).1 =
      (MonacoCodeEditor.dispose s).1 ∧
    (MonacoCodeEditor.dispose (MonacoCodeEditor.dispose s).1).2 = 0 ∧
    (s.isDisposed = false →
      (MonacoCodeEditor.dispose s).1 = ⟨true, false, false, 0, 0, 0, true⟩) := by
  by_cases h : s.isDisposed <;>
    simp [MonacoCodeEditor.dispose, h]

/-- Witness for C9: disposing a live adapter with one listener of each
kind clears everything, and a second `dispose` is a no-op doing zero
work. -/
theorem c9_dispose_idempotent_witness :
    (MonacoCodeEditor.dispose
      (MonacoCodeEditor.dispose ⟨false, true, true, 1, 2, 1, false⟩).1).2 = 0 ∧
    (MonacoCodeEditor.dispose ⟨false, true, true, 1, 2, 1, false⟩).1 =
      ⟨true, false, false, 0, 0, 0, true⟩ :=
  ⟨(c9_dispose_idempotent ⟨false, true, true, 1, 2, 1, false⟩).2.1,
   (c9_dispose_idempotent ⟨false, true, true, 1, 2, 1, false⟩).2.2 rfl⟩

/-- Claim C5: in every adapter state — whatever selections and cursor
the embedded editor reports, including zero selections — `getSelections`
returns a non-empty list whose head `getSelection` returns, and the
state produced by `setSelections []` is no exception. -/
theorem c5_selections_nonempty (st : SelectionState) (uuid style : String) :
    (∃ hd tl, MonacoCodeEditor.getSelections st uuid style = hd :: tl ∧
      MonacoCodeEditor.getSelection st uuid style = hd) ∧
    MonacoCodeEditor.getSelections (MonacoCodeEditor.setSelections st []) uuid style ≠ [] := by
  constructor
  · match h : st.selections with
    | [] =>
      exact ⟨MonacoCodeEditor.toValidSelection st uuid style
          (MonacoCodeEditor.toMonacoSelection
            ⟨MonacoCodeEditor.getCursorPosition st, MonacoCodeEditor.getCursorPosition st⟩), [],
        by simp [MonacoCodeEditor.getSelections, h],
        by simp [MonacoCodeEditor.getSelection, MonacoCodeEditor.getSelections, h]⟩
    | a :: as =>
      exact ⟨MonacoCodeEditor.toValidSelection st uuid style a,
        as.map (MonacoCodeEditor.toValidSelection st uuid style),
        by simp [MonacoCodeEditor.getSelections, h],
        by simp [MonacoCodeEditor.getSelection, MonacoCodeEditor.getSelections, h]⟩
  · simp [MonacoCodeEditor.getSelections, MonacoCodeEditor.setSelections,
      MonacoCodeEditor.toMonacoSelections]
